import Mathlib

/-!
Verification of the Ingest & Normalize pipeline of `app.py` (the "Alchemist"
habit-tracking dashboard).

The embedding covers the Engineer layer (date cleaning, sentiment scoring,
rolling trend) and the mood-mapping step of the dashboard layer.  A pandas
`DataFrame` is modelled as a `Table`: a list of `Row`s together with flags
recording which of the recognized columns are present.  The external
dependencies — pandas' date-format guesser used by `pd.to_datetime`, and
TextBlob's `sentiment.polarity` — are parameters (`p` and `polarity`).
-/

namespace DataDriven

/-- One cell of the `Date` column.  Before processing it holds a raw string
(or NaN = `missing`); `pd.to_datetime` turns it into a timestamp (`dt`,
modelled as an integer) or NaT (`missing`). -/
inductive DateCell where
  | missing : DateCell
  | str : String → DateCell
  | dt : Int → DateCell
deriving DecidableEq, Inhabited

/-- One row of the table.  Only the columns that the engineered pipeline
reads or writes are modelled; a cell of an absent column is irrelevant and
column presence is tracked by the `Table` flags. -/
structure Row where
  date : DateCell
  journal : Option String
  sentimentScore : Option ℚ
  sentimentTrend : Option ℚ
  mood : Option String
  moodScore : Option ℚ
  moodNormalized : Option ℚ
deriving DecidableEq, Inhabited

/-- A DataFrame: ordered rows plus presence flags for the columns whose
existence the script tests with `'c' in df.columns`. -/
structure Table where
  hasDate : Bool
  hasJournal : Bool
  hasMood : Bool
  hasMoodScore : Bool
  rows : List Row
deriving DecidableEq, Inhabited

/-- `pd.to_datetime(cell, dayfirst=b, errors='coerce')` on a single cell.
The string parser `p` (pandas' format guesser, external to this repo) gets
the `dayfirst` flag; an unparseable string coerces to NaT.  A NaN cell
coerces to NaT, and a cell that is already a datetime is returned unchanged
(`dayfirst` only influences string parsing). -/
def to_datetime (p : Bool → String → Option Int) (dayfirst : Bool) :
    DateCell → DateCell
  | .missing => .missing
  | .str s =>
    match p dayfirst s with
    | some t => .dt t
    | none => .missing
  | .dt t => .dt t

/-- `Series.isnull()` on a `Date` cell: true exactly for NaT/NaN. -/
def DateCell.isNull : DateCell → Bool
  | .missing => true
  | _ => false

/-- Sort key used by `sort_values(by='Date')`; it is only ever applied after
`dropna`, when every cell is a `dt` timestamp. -/
def dateKey : DateCell → Int
  | .dt t => t
  | _ => 0

/-- Row comparison for `df.sort_values(by='Date')` (ascending). -/
def dateLE (a b : Row) : Prop := dateKey a.date ≤ dateKey b.date

instance : DecidableRel dateLE := fun a b => Int.decLe (dateKey a.date) (dateKey b.date)

instance : IsTotal Row dateLE := ⟨fun a b => Int.le_total (dateKey a.date) (dateKey b.date)⟩

instance : IsTrans Row dateLE := ⟨fun _ _ _ h h2 => Int.le_trans h h2⟩

/-- Lines 51–61 of `app.py`, the date-cleaning block inside the `try`:

    df['Date'] = pd.to_datetime(df['Date'], dayfirst=False, errors='coerce')
    if df['Date'].isnull().all():
        df['Date'] = pd.to_datetime(df['Date'], dayfirst=True, errors='coerce')
    df = df.dropna(subset=['Date'])
    df = df.sort_values(by='Date')

Note that the first assignment replaces the column, so the `dayfirst=True`
retry runs on the already-coerced column.  The sort is modelled as an
insertion sort; pandas' default `kind='quicksort'` guarantees only that the
result is a permutation of the rows sorted by `Date`, so the theorems below
use only facts every correct sort shares (sortedness and membership), never
the tie order or the exact permutation this particular algorithm picks. -/
def cleanDates (p : Bool → String → Option Int) (rows : List Row) : List Row :=
  let rows1 := rows.map fun r => { r with date := to_datetime p false r.date }
  let rows2 :=
    if rows1.all (fun r => r.date.isNull) then
      rows1.map fun r => { r with date := to_datetime p true r.date }
    else rows1
  let rows3 := rows2.filter fun r => !r.date.isNull
  List.insertionSort dateLE rows3

/-- Lines 68–72 of `app.py`:

    def get_sentiment(text):
        if pd.isna(text) or str(text).strip() == "":
            return 0
        return TextBlob(str(text)).sentiment.polarity

The cell is `Option String` (`none` = NaN); `polarity` is TextBlob's
analyser, external to this repo. -/
def get_sentiment (polarity : String → ℚ) : Option String → ℚ
  | none => 0
  | some s => if s.trim = "" then 0 else polarity s

/-- One entry of `Series.rolling(window, min_periods).mean()`: the mean of
the values at positions `max 0 (i+1-window) … i`, or NaN (`none`) when
fewer than `min_periods` observations are available. -/
def rollingMeanAt (window minPeriods : Nat) (xs : List ℚ) (i : Nat) : Option ℚ :=
  let win := (xs.take (i + 1)).drop (i + 1 - window)
  if win.length < minPeriods then none
  else some (win.sum / (win.length : ℚ))

/-- `Series.rolling(window, min_periods).mean()` over a whole column. -/
def rollingMean (window minPeriods : Nat) (xs : List ℚ) : List (Option ℚ) :=
  (List.range xs.length).map (rollingMeanAt window minPeriods xs)

/-- Lines 74–81 of `app.py`:

    if 'Journal' in df.columns:
        df['Sentiment_Score'] = df['Journal'].apply(get_sentiment)
        df['Sentiment_Trend'] = df['Sentiment_Score'].rolling(window=7, min_periods=1).mean()
    else:
        df['Sentiment_Score'] = 0
        df['Sentiment_Trend'] = 0
-/
def addSentiment (polarity : String → ℚ) (t : Table) : Table :=
  if t.hasJournal then
    let scores := t.rows.map fun r => get_sentiment polarity r.journal
    let trends := rollingMean 7 1 scores
    let rows1 := List.zipWith (fun r s => { r with sentimentScore := some s }) t.rows scores
    let rows2 := List.zipWith (fun r tr => { r with sentimentTrend := tr }) rows1 trends
    { t with rows := rows2 }
  else
    { t with rows := t.rows.map fun r =>
        { r with sentimentScore := some (0 : ℚ), sentimentTrend := some (0 : ℚ) } }

/-- The failure surfaced by the `except` branch of the Engineer layer
(`st.error("Date Parsing Error: ...")` followed by `st.stop()`). -/
inductive NormalizeError where
  | dateParseError : NormalizeError
deriving DecidableEq, Inhabited

/-- The whole Engineer layer (lines 50–81).  Inside the `try`, the only
statement that can raise is the column access `df['Date']` (a `KeyError`
when the `Date` column is absent); `errors='coerce'`, `dropna` and
`sort_values` never raise.  On success the date-cleaned, sentiment-enriched
table is returned. -/
def normalize (p : Bool → String → Option Int) (polarity : String → ℚ)
    (t : Table) : Except NormalizeError Table :=
  if t.hasDate then
    .ok (addSentiment polarity { t with rows := cleanDates p t.rows })
  else
    .error .dateParseError

/-- Line 122 of `app.py`: `mood_map = {'Great': 5, 'Good': 4, 'Neutral': 3,
'Bad': 2, 'Terrible': 1}`, as used by `Series.map` (keys not in the dict
become NaN). -/
def mood_map : String → Option ℚ := fun m =>
  if m = "Great" then some 5
  else if m = "Good" then some 4
  else if m = "Neutral" then some 3
  else if m = "Bad" then some 2
  else if m = "Terrible" then some 1
  else none

/-- Lines 121–127 of `app.py`:

    if 'Mood' in filtered_df.columns and 'Mood_Score' not in filtered_df.columns:
        mood_map = {...}
        filtered_df['Mood_Score'] = filtered_df['Mood'].map(mood_map)
    if 'Mood_Score' in filtered_df.columns:
        filtered_df['Mood_Normalized'] = (filtered_df['Mood_Score'] - 3) / 2
-/
def moodStep (t : Table) : Table :=
  let t1 :=
    if t.hasMood && !t.hasMoodScore then
      { t with hasMoodScore := true,
               rows := t.rows.map fun r => { r with moodScore := r.mood.bind mood_map } }
    else t
  if t1.hasMoodScore then
    { t1 with rows := t1.rows.map fun r =>
        { r with moodNormalized := r.moodScore.map fun m => (m - 3) / 2 } }
  else t1

/-! ### Helper abbreviations for the proofs -/

/-- The per-row effect of the `Journal`-present branch of `addSentiment`:
set `Sentiment_Score` from the row's own journal cell and `Sentiment_Trend`
to the given rolling-mean entry. -/
def setSentiment (pol : String → ℚ) (r : Row) (tr : Option ℚ) : Row :=
  { r with sentimentScore := some (get_sentiment pol r.journal), sentimentTrend := tr }

/-- The per-row effect of the `Journal`-absent branch of `addSentiment`. -/
def setSentimentZero (r : Row) : Row :=
  { r with sentimentScore := some (0 : ℚ), sentimentTrend := some (0 : ℚ) }

/-- `df['Journal'].apply(get_sentiment)` as a column. -/
def journalScores (pol : String → ℚ) (rows : List Row) : List ℚ :=
  rows.map fun r => get_sentiment pol r.journal

/-! ### Concrete fixtures used in closed runs of the pipeline -/

/-- A string parser that fails on every input in both modes. -/
def pNone : Bool → String → Option Int := fun _ _ => none

/-- A string parser under which month-first parsing fails on every value
while day-first parsing succeeds on `25/12/2024`: the day-before-month
regression scenario of spec §8. -/
def pDayfirstOnly : Bool → String → Option Int := fun dayfirst s =>
  if dayfirst && s == "25/12/2024" then some 20241225 else none

/-- A string parser recognizing the two dates of the witness table in
either mode. -/
def pIso : Bool → String → Option Int := fun _ s =>
  if s == "2024-01-15" then some 738900
  else if s == "2024-01-16" then some 738901
  else none

/-- A constant sentiment analyser for concrete runs. -/
def polZero : String → ℚ := fun _ => 0

/-- A row with every cell missing. -/
def emptyRow : Row :=
  { date := .missing, journal := none, sentimentScore := none, sentimentTrend := none,
    mood := none, moodScore := none, moodNormalized := none }

/-- One-row table whose only date is in day-before-month format. -/
def tDayfirst : Table :=
  { hasDate := true, hasJournal := false, hasMood := false, hasMoodScore := false,
    rows := [{ emptyRow with date := .str "25/12/2024" }] }

/-- One-row table whose only date is unparseable in both modes. -/
def tAllBad : Table :=
  { hasDate := true, hasJournal := false, hasMood := false, hasMoodScore := false,
    rows := [{ emptyRow with date := .str "not-a-date" }] }

/-- Two-row table with parseable dates given out of order. -/
def tWitness : Table :=
  { hasDate := true, hasJournal := false, hasMood := false, hasMoodScore := false,
    rows := [{ emptyRow with date := .str "2024-01-16" },
             { emptyRow with date := .str "2024-01-15" }] }

/-- The normalized form of `tWitness` under `pIso`/`polZero`. -/
def uWitness : Table :=
  { hasDate := true, hasJournal := false, hasMood := false, hasMoodScore := false,
    rows := [{ emptyRow with date := .dt 738900,
                             sentimentScore := some 0, sentimentTrend := some 0 },
             { emptyRow with date := .dt 738901,
                             sentimentScore := some 0, sentimentTrend := some 0 }] }

/-- One-row table with a textual `Mood` column and no `Mood_Score`. -/
def tMood : Table :=
  { hasDate := true, hasJournal := false, hasMood := true, hasMoodScore := false,
    rows := [{ emptyRow with mood := some "Great" }] }

/-- One-row table that already carries a `Mood_Score` column next to `Mood`. -/
def tMoodScore : Table :=
  { hasDate := true, hasJournal := false, hasMood := true, hasMoodScore := true,
    rows := [{ emptyRow with mood := some "Bad", moodScore := some 5 }] }

/-! ### Generic list lemmas -/

theorem mem_zipWith {α β γ : Type*} {f : α → β → γ} {c : γ} :
    ∀ {as : List α} {bs : List β}, c ∈ List.zipWith f as bs →
      ∃ a ∈ as, ∃ b ∈ bs, c = f a b
  | [], _, h => by simp at h
  | _ :: _, [], h => by simp at h
  | a :: as, b :: bs, h => by
    rw [List.zipWith_cons_cons, List.mem_cons] at h
    rcases h with h | h
    · exact ⟨a, List.mem_cons_self .., b, List.mem_cons_self .., h⟩
    · obtain ⟨x, hx, y, hy, hc⟩ := mem_zipWith h
      exact ⟨x, List.mem_cons_of_mem _ hx, y, List.mem_cons_of_mem _ hy, hc⟩

theorem map_zipWith_eq_map {α β γ δ : Type*} (f : α → β → γ) (g : γ → δ) (g2 : α → δ)
    (hf : ∀ a b, g (f a b) = g2 a) :
    ∀ (as : List α) (bs : List β), as.length = bs.length →
      (List.zipWith f as bs).map g = as.map g2
  | [], _, _ => rfl
  | _ :: _, [], h => by simp at h
  | a :: as, b :: bs, h => by
    simp only [List.zipWith_cons_cons, List.map_cons, hf]
    rw [map_zipWith_eq_map f g g2 hf as bs (by simpa using h)]

theorem getD_eq_getElem {α : Type*} (l : List α) (d : α) {i : Nat} (h : i < l.length) :
    l.getD i d = l[i] := by
  simp [List.getD_eq_getElem?_getD, List.getElem?_eq_getElem h]

/-! ### Structure of `addSentiment` -/

theorem addSentiment_eq_of_true (pol : String → ℚ) (t : Table) (h : t.hasJournal = true) :
    addSentiment pol t =
      { t with rows := List.zipWith (setSentiment pol) t.rows
                         (rollingMean 7 1 (journalScores pol t.rows)) } := by
  simp only [addSentiment, h, if_true, journalScores]
  rw [List.zipWith_map_right, List.zipWith_same, List.zipWith_map_left]
  rfl

theorem addSentiment_eq_of_false (pol : String → ℚ) (t : Table) (h : t.hasJournal = false) :
    addSentiment pol t = { t with rows := t.rows.map setSentimentZero } := by
  simp only [addSentiment, h, Bool.false_eq_true, if_false]
  rfl

theorem length_rollingMean (w m : Nat) (xs : List ℚ) :
    (rollingMean w m xs).length = xs.length := by
  simp [rollingMean]

theorem length_journalScores (pol : String → ℚ) (rows : List Row) :
    (journalScores pol rows).length = rows.length := by
  simp [journalScores]

theorem addSentiment_map_date (pol : String → ℚ) (t : Table) :
    (addSentiment pol t).rows.map (fun r => r.date) = t.rows.map fun r => r.date := by
  cases h : t.hasJournal
  · rw [addSentiment_eq_of_false pol t h]
    rw [List.map_map]
    rfl
  · rw [addSentiment_eq_of_true pol t h]
    refine map_zipWith_eq_map (setSentiment pol) _ _ (fun a b => rfl) _ _ ?_
    rw [length_rollingMean, length_journalScores]

/-! ### Structure of `cleanDates` and `normalize` -/

theorem to_datetime_dt_or_missing (p : Bool → String → Option Int) (dayfirst : Bool)
    (c : DateCell) :
    to_datetime p dayfirst c = .missing ∨ ∃ n, to_datetime p dayfirst c = .dt n := by
  cases c with
  | missing => exact Or.inl rfl
  | str s =>
    cases hp : p dayfirst s with
    | none => exact Or.inl (by simp [to_datetime, hp])
    | some n => exact Or.inr ⟨n, by simp [to_datetime, hp]⟩
  | dt n => exact Or.inr ⟨n, rfl⟩

theorem cleanDates_sorted (p : Bool → String → Option Int) (rows : List Row) :
    List.Sorted dateLE (cleanDates p rows) :=
  List.sorted_insertionSort dateLE _

theorem cleanDates_mem_dt (p : Bool → String → Option Int) (rows : List Row) (r : Row)
    (hr : r ∈ cleanDates p rows) : ∃ n, r.date = .dt n := by
  simp only [cleanDates, List.mem_insertionSort, List.mem_filter] at hr
  obtain ⟨hr2, hnull⟩ := hr
  have hshape : r.date = .missing ∨ ∃ n, r.date = .dt n := by
    split at hr2
    · obtain ⟨r1, _, hre⟩ := List.mem_map.mp hr2
      rcases to_datetime_dt_or_missing p true r1.date with hm | ⟨n, hn⟩
      · exact Or.inl (by rw [← hre, hm])
      · exact Or.inr ⟨n, by rw [← hre, hn]⟩
    · obtain ⟨r0, _, hre⟩ := List.mem_map.mp hr2
      rcases to_datetime_dt_or_missing p false r0.date with hm | ⟨n, hn⟩
      · exact Or.inl (by rw [← hre, hm])
      · exact Or.inr ⟨n, by rw [← hre, hn]⟩
  rcases hshape with hm | hdt
  · rw [hm] at hnull
    simp [DateCell.isNull] at hnull
  · exact hdt

theorem normalize_ok_elim (p : Bool → String → Option Int) (pol : String → ℚ)
    (t u : Table) (h : normalize p pol t = .ok u) :
    t.hasDate = true ∧ u = addSentiment pol { t with rows := cleanDates p t.rows } := by
  unfold normalize at h
  by_cases hD : t.hasDate = true
  · rw [if_pos hD] at h
    injection h with h
    exact ⟨hD, h.symm⟩
  · rw [if_neg hD] at h
    exact absurd h (by simp)

theorem normalize_rows_dt (p : Bool → String → Option Int) (pol : String → ℚ)
    (t u : Table) (h : normalize p pol t = .ok u) :
    ∀ r ∈ u.rows, ∃ n, r.date = .dt n := by
  obtain ⟨hD, hu⟩ := normalize_ok_elim p pol t u h
  intro r hr
  have hmap : u.rows.map (fun r => r.date) = (cleanDates p t.rows).map fun r => r.date := by
    rw [hu]
    exact addSentiment_map_date pol { t with rows := cleanDates p t.rows }
  have hmem : r.date ∈ u.rows.map fun r => r.date := List.mem_map_of_mem _ hr
  rw [hmap] at hmem
  obtain ⟨r2, hr2, hdate⟩ := List.mem_map.mp hmem
  obtain ⟨n, hn⟩ := cleanDates_mem_dt p t.rows r2 hr2
  exact ⟨n, by rw [← hdate, hn]⟩

theorem pairwise_dateLE_of_map_date_eq {l1 l2 : List Row}
    (h : l1.map (fun r => r.date) = l2.map fun r => r.date)
    (hp : l2.Pairwise dateLE) : l1.Pairwise dateLE := by
  have h2 : (l2.map fun r => r.date).Pairwise fun c d => dateKey c ≤ dateKey d :=
    List.pairwise_map.mpr hp
  rw [← h] at h2
  have h3 := List.pairwise_map.mp h2
  exact h3

theorem normalize_rows_sorted (p : Bool → String → Option Int) (pol : String → ℚ)
    (t u : Table) (h : normalize p pol t = .ok u) : u.rows.Pairwise dateLE := by
  obtain ⟨hD, hu⟩ := normalize_ok_elim p pol t u h
  refine pairwise_dateLE_of_map_date_eq ?_ (cleanDates_sorted p t.rows)
  rw [hu]
  exact addSentiment_map_date pol { t with rows := cleanDates p t.rows }

/-! ### The rolling mean as a window average -/

theorem length_take_drop (xs : List ℚ) {lo i : Nat} (hi : i < xs.length) :
    ((xs.take (i + 1)).drop lo).length = i + 1 - lo := by
  rw [List.length_drop, List.length_take, Nat.min_eq_left (by omega)]

theorem take_succ_drop (xs : List ℚ) {lo i : Nat} (hi : i < xs.length) (hlo : lo ≤ i) :
    (xs.take (i + 1)).drop lo = (xs.take i).drop lo ++ [xs.getD i 0] := by
  rw [List.take_succ, List.getElem?_eq_getElem hi, Option.toList_some,
      List.drop_append_of_le_length (by rw [List.length_take]; omega),
      getD_eq_getElem xs 0 hi]

theorem slice_sum (xs : List ℚ) :
    ∀ i : Nat, i < xs.length → ∀ lo : Nat, lo ≤ i →
      ((xs.take (i + 1)).drop lo).sum = ∑ j ∈ Finset.Icc lo i, xs.getD j 0 := by
  intro i
  induction i with
  | zero =>
    intro hi lo hlo
    have hlo0 : lo = 0 := Nat.le_zero.mp hlo
    subst hlo0
    rw [take_succ_drop xs hi (Nat.le_refl 0), Finset.Icc_self, Finset.sum_singleton]
    simp
  | succ i ih =>
    intro hi lo hlo
    rw [take_succ_drop xs hi hlo, List.sum_append, List.sum_cons, List.sum_nil]
    by_cases hcase : lo = i + 1
    · subst hcase
      rw [List.drop_eq_nil_of_le (by rw [List.length_take]; omega),
          Finset.Icc_self, Finset.sum_singleton]
      simp
    · have hlo2 : lo ≤ i := by omega
      rw [ih (by omega) lo hlo2, Finset.sum_Icc_succ_top (by omega)]
      simp

theorem rollingMeanAt_eq (w : Nat) (hw : 0 < w) (xs : List ℚ) (i : Nat) (hi : i < xs.length) :
    rollingMeanAt w 1 xs i =
      some ((∑ j ∈ Finset.Icc (i + 1 - w) i, xs.getD j 0) /
        ((i + 1 - (i + 1 - w) : Nat) : ℚ)) := by
  have hlo : i + 1 - w ≤ i := by omega
  have hlen : ((xs.take (i + 1)).drop (i + 1 - w)).length = i + 1 - (i + 1 - w) :=
    length_take_drop xs hi
  simp only [rollingMeanAt]
  rw [hlen, if_neg (by omega), slice_sum xs i hi (i + 1 - w) hlo]

theorem rollingMeanAt_seven (xs : List ℚ) (i : Nat) (hi : i < xs.length) :
    rollingMeanAt 7 1 xs i =
      some ((∑ j ∈ Finset.Icc (i - 6) i, xs.getD j 0) / ((Finset.Icc (i - 6) i).card : ℚ)) := by
  have h7 : i + 1 - 7 = i - 6 := by omega
  rw [rollingMeanAt_eq 7 (by omega) xs i hi, h7, Nat.card_Icc]

/-! ### Element-wise characterization of `addSentiment` -/

theorem addSentiment_length (pol : String → ℚ) (t : Table) :
    (addSentiment pol t).rows.length = t.rows.length := by
  cases h : t.hasJournal
  · rw [addSentiment_eq_of_false pol t h]
    exact List.length_map t.rows setSentimentZero
  · rw [addSentiment_eq_of_true pol t h]
    rw [List.length_zipWith, length_rollingMean, length_journalScores, Nat.min_self]

theorem addSentiment_getD_true (pol : String → ℚ) (t : Table) (h : t.hasJournal = true)
    {i : Nat} (hi : i < t.rows.length) :
    (addSentiment pol t).rows.getD i default =
      setSentiment pol (t.rows.getD i default)
        (rollingMeanAt 7 1 (journalScores pol t.rows) i) := by
  rw [addSentiment_eq_of_true pol t h]
  have hlen : (List.zipWith (setSentiment pol) t.rows
      (rollingMean 7 1 (journalScores pol t.rows))).length = t.rows.length := by
    rw [List.length_zipWith, length_rollingMean, length_journalScores, Nat.min_self]
  rw [getD_eq_getElem _ default (by rw [hlen]; exact hi), List.getElem_zipWith,
      getD_eq_getElem t.rows default hi]
  simp [rollingMean]

theorem addSentiment_getD_false (pol : String → ℚ) (t : Table) (h : t.hasJournal = false)
    {i : Nat} (hi : i < t.rows.length) :
    (addSentiment pol t).rows.getD i default = setSentimentZero (t.rows.getD i default) := by
  rw [addSentiment_eq_of_false pol t h]
  rw [getD_eq_getElem _ default (by rw [List.length_map]; exact hi), List.getElem_map,
      getD_eq_getElem t.rows default hi]

theorem journalScores_getD (pol : String → ℚ) (rows : List Row) {i : Nat}
    (hi : i < rows.length) :
    (journalScores pol rows).getD i 0 = get_sentiment pol ((rows.getD i default).journal) := by
  unfold journalScores
  rw [getD_eq_getElem _ 0 (by rw [List.length_map]; exact hi), List.getElem_map,
      getD_eq_getElem rows default hi]

/-! ### Sentiment bounds and rolling-mean definedness -/

theorem get_sentiment_bounds (pol : String → ℚ) (hpol : ∀ s, -1 ≤ pol s ∧ pol s ≤ 1)
    (j : Option String) : -1 ≤ get_sentiment pol j ∧ get_sentiment pol j ≤ 1 := by
  cases j with
  | none => norm_num [get_sentiment]
  | some s =>
    by_cases hs : s.trim = ""
    · norm_num [get_sentiment, hs]
    · simpa [get_sentiment, hs] using hpol s

theorem get_sentiment_empty (pol : String → ℚ) (j : Option String)
    (hj : j = none ∨ j.map String.trim = some "") : get_sentiment pol j = 0 := by
  rcases hj with hj | hj
  · rw [hj]
    rfl
  · cases j with
    | none => rfl
    | some s =>
      have hs : s.trim = "" := by
        have h2 : some s.trim = some "" := hj
        injection h2
      simp [get_sentiment, hs]

theorem rollingMean_mem_isSome (xs : List ℚ) {tr : Option ℚ}
    (htr : tr ∈ rollingMean 7 1 xs) : ∃ q, tr = some q := by
  unfold rollingMean at htr
  obtain ⟨j, hj, hjt⟩ := List.mem_map.mp htr
  rw [List.mem_range] at hj
  refine ⟨(∑ k ∈ Finset.Icc (j - 6) j, xs.getD k 0) / ((Finset.Icc (j - 6) j).card : ℚ), ?_⟩
  rw [← hjt]
  exact rollingMeanAt_seven xs j hj

/-! ### Structure of `moodStep` -/

theorem getD_map_row (F : Row → Row) (rows : List Row) {i : Nat} (hi : i < rows.length) :
    (rows.map F).getD i default = F (rows.getD i default) := by
  rw [getD_eq_getElem _ default (by rw [List.length_map]; exact hi), List.getElem_map,
      getD_eq_getElem rows default hi]

theorem moodStep_eq_of (t : Table) (hM : t.hasMood = true) (hMS : t.hasMoodScore = false) :
    moodStep t =
      { t with hasMoodScore := true,
               rows := t.rows.map fun r =>
                 { r with moodScore := r.mood.bind mood_map,
                          moodNormalized :=
                            (r.mood.bind mood_map).map fun q => (q - 3) / 2 } } := by
  simp only [moodStep, hM, hMS, Bool.not_false, Bool.and_self, if_true, List.map_map]
  rfl

/-! ### Concrete runs of the pipeline -/

theorem normalize_tWitness : normalize pIso polZero tWitness = .ok uWitness := by
  rfl

/-! ### The claims -/

/-- C1: the spec demands that a table whose dates are exclusively
day-before-month (month-first parsing failing on every value) is reparsed
day-first and its rows recovered.  The code cannot do this: line 53 of
`app.py` overwrites `df['Date']` with the coerced (all-NaT) result of
attempt 1, so the `dayfirst=True` retry on line 57 re-parses NaT values
and recovers nothing.  Concretely: month-first parsing fails on the single
value, day-first parsing would succeed on it, yet the normalized table is
empty instead of containing the recovered row. -/
theorem C1_dayfirst_fallback_recovers_nothing :
    pDayfirstOnly false "25/12/2024" = none ∧
    pDayfirstOnly true "25/12/2024" = some 20241225 ∧
    normalize pDayfirstOnly polZero tDayfirst = .ok { tDayfirst with rows := [] } :=
  ⟨rfl, rfl, rfl⟩

/-- C2 counterexample: a table whose only `Date` value is unparseable under
both attempts does NOT make normalization fail — a (row-less) Table is
produced, because `errors='coerce'` never raises and the `except` branch
only fires on the `KeyError` of a missing `Date` column. -/
theorem C2_counterexample_all_unparseable_still_ok :
    pNone false "not-a-date" = none ∧ pNone true "not-a-date" = none ∧
    normalize pNone polZero tAllBad = .ok { tAllBad with rows := [] } :=
  ⟨rfl, rfl, rfl⟩

/-- C2 (amended): normalization fails with a `DateParseError` (and produces
no Table) exactly when the `Date` column is absent from the input; when the
column is present but every value is unparseable under both attempts, an
empty Table is produced without error. -/
theorem C2_amended_error_iff_date_column_absent (p : Bool → String → Option Int)
    (pol : String → ℚ) (t : Table) :
    normalize p pol t = .error .dateParseError ↔ t.hasDate = false := by
  unfold normalize
  by_cases hD : t.hasDate = true
  · rw [if_pos hD]
    simp [hD]
  · rw [if_neg hD]
    simp only [Bool.not_eq_true] at hD
    simp [hD]

/-- C3: for every input accepted by the Normalizer, every retained row has a
successfully parsed `Date` (a `dt` timestamp), and the rows are in
non-decreasing `Date` order. -/
theorem C3_rows_parsed_and_sorted (p : Bool → String → Option Int) (pol : String → ℚ)
    (t u : Table) (h : normalize p pol t = .ok u) :
    (∀ r ∈ u.rows, ∃ n, r.date = DateCell.dt n) ∧ u.rows.Chain' dateLE :=
  ⟨normalize_rows_dt p pol t u h, (normalize_rows_sorted p pol t u h).chain'⟩

theorem C3_rows_parsed_and_sorted_witness :
    (∀ r ∈ uWitness.rows, ∃ n, r.date = DateCell.dt n) ∧ uWitness.rows.Chain' dateLE :=
  C3_rows_parsed_and_sorted pIso polZero tWitness uWitness normalize_tWitness

/-- C5: provided the external analyser returns polarities in [-1, 1] (as
TextBlob documents), every row of a normalized table carries a
`Sentiment_Score` in [-1, 1], and a row whose `Journal` cell is missing or
whose text is empty/whitespace-only scores exactly 0. -/
theorem C5_sentiment_score_range (p : Bool → String → Option Int) (pol : String → ℚ)
    (hpol : ∀ s, -1 ≤ pol s ∧ pol s ≤ 1) (t u : Table)
    (h : normalize p pol t = .ok u) :
    ∀ r ∈ u.rows, ∃ q : ℚ, r.sentimentScore = some q ∧ -1 ≤ q ∧ q ≤ 1 ∧
      ((r.journal = none ∨ r.journal.map String.trim = some "") → q = 0) := by
  obtain ⟨hD, hu⟩ := normalize_ok_elim p pol t u h
  intro r hr
  cases hJ : t.hasJournal
  · have hJ2 : ({ t with rows := cleanDates p t.rows } : Table).hasJournal = false := hJ
    rw [hu, addSentiment_eq_of_false pol _ hJ2] at hr
    obtain ⟨r0, _, hre⟩ := List.mem_map.mp hr
    refine ⟨0, ?_, by norm_num, by norm_num, fun _ => rfl⟩
    rw [← hre]
    rfl
  · have hJ2 : ({ t with rows := cleanDates p t.rows } : Table).hasJournal = true := hJ
    rw [hu, addSentiment_eq_of_true pol _ hJ2] at hr
    obtain ⟨a, _, tr, _, hre⟩ := mem_zipWith hr
    refine ⟨get_sentiment pol a.journal, ?_, (get_sentiment_bounds pol hpol a.journal).1,
            (get_sentiment_bounds pol hpol a.journal).2, ?_⟩
    · rw [hre]
      rfl
    · intro hj
      have hja : r.journal = a.journal := by rw [hre]; rfl
      rw [← hja]
      exact get_sentiment_empty pol r.journal hj

theorem C5_sentiment_score_range_witness :
    ∃ q : ℚ, (uWitness.rows.getD 0 default).sentimentScore = some q ∧ -1 ≤ q ∧ q ≤ 1 ∧
      (((uWitness.rows.getD 0 default).journal = none ∨
        (uWitness.rows.getD 0 default).journal.map String.trim = some "") → q = 0) :=
  C5_sentiment_score_range pIso polZero
    (fun s => ⟨by norm_num [polZero], by norm_num [polZero]⟩)
    tWitness uWitness normalize_tWitness (uWitness.rows.getD 0 default) (by decide)

/-- C6: in a normalized table, the `Sentiment_Trend` of the row at position
`i` (date order) is the arithmetic mean of `Sentiment_Score` over the rows
at positions max(0, i-6) through i inclusive — in particular it is defined
at every row, averaging over however many of the up-to-7 samples exist. -/
theorem C6_trend_is_trailing_window_mean (p : Bool → String → Option Int)
    (pol : String → ℚ) (t u : Table) (h : normalize p pol t = .ok u)
    (i : Nat) (hi : i < u.rows.length) :
    (u.rows.getD i default).sentimentTrend =
      some ((∑ j ∈ Finset.Icc (i - 6) i, (u.rows.getD j default).sentimentScore.getD 0) /
        ((Finset.Icc (i - 6) i).card : ℚ)) := by
  obtain ⟨hD, hu⟩ := normalize_ok_elim p pol t u h
  subst hu
  rw [addSentiment_length] at hi
  by_cases hJ : t.hasJournal = true
  case neg =>
    have hJ : t.hasJournal = false := by simpa using hJ
    have hJ2 : ({ t with rows := cleanDates p t.rows } : Table).hasJournal = false := hJ
    have hrow : ∀ {j : Nat}, j < (cleanDates p t.rows).length →
        (addSentiment pol { t with rows := cleanDates p t.rows }).rows.getD j default =
          setSentimentZero ((cleanDates p t.rows).getD j default) :=
      fun {j} hj => addSentiment_getD_false pol _ hJ2 hj
    rw [hrow hi]
    have hsum : ∀ j ∈ Finset.Icc (i - 6) i,
        ((addSentiment pol
            { t with rows := cleanDates p t.rows }).rows.getD j default).sentimentScore.getD 0
          = 0 := by
      intro j hj
      have hji : j ≤ i := (Finset.mem_Icc.mp hj).2
      rw [hrow (lt_of_le_of_lt hji hi)]
      rfl
    rw [Finset.sum_congr rfl hsum, Finset.sum_const_zero, zero_div]
    rfl
  case pos =>
    have hJ2 : ({ t with rows := cleanDates p t.rows } : Table).hasJournal = true := hJ
    have hrow : ∀ {j : Nat}, j < (cleanDates p t.rows).length →
        (addSentiment pol { t with rows := cleanDates p t.rows }).rows.getD j default =
          setSentiment pol ((cleanDates p t.rows).getD j default)
            (rollingMeanAt 7 1 (journalScores pol (cleanDates p t.rows)) j) :=
      fun {j} hj => addSentiment_getD_true pol _ hJ2 hj
    rw [hrow hi]
    have hS : i < (journalScores pol (cleanDates p t.rows)).length := by
      rw [length_journalScores]
      exact hi
    show rollingMeanAt 7 1 (journalScores pol (cleanDates p t.rows)) i = _
    rw [rollingMeanAt_seven _ i hS]
    have hterm : ∀ j ∈ Finset.Icc (i - 6) i,
        (journalScores pol (cleanDates p t.rows)).getD j 0 =
          ((addSentiment pol
              { t with rows := cleanDates p t.rows }).rows.getD j default).sentimentScore.getD 0 := by
      intro j hj
      have hji : j ≤ i := (Finset.mem_Icc.mp hj).2
      have hjv : j < (cleanDates p t.rows).length := lt_of_le_of_lt hji hi
      rw [journalScores_getD pol _ hjv, hrow hjv]
      rfl
    rw [Finset.sum_congr rfl hterm]

theorem C6_trend_is_trailing_window_mean_witness :
    (uWitness.rows.getD 1 default).sentimentTrend =
      some ((∑ j ∈ Finset.Icc (1 - 6) 1, (uWitness.rows.getD j default).sentimentScore.getD 0) /
        ((Finset.Icc (1 - 6) 1).card : ℚ)) :=
  C6_trend_is_trailing_window_mean pIso polZero tWitness uWitness normalize_tWitness 1
    (by decide)

/-- C8: a table with a `Date` column always normalizes successfully — the
absence of any optional column is never fatal — and the derived columns
`Sentiment_Score` and `Sentiment_Trend` are present on every output row;
when `Journal` is absent both are the constant 0. -/
theorem C8_missing_optional_columns_not_fatal (p : Bool → String → Option Int)
    (pol : String → ℚ) (t : Table) (hD : t.hasDate = true) :
    ∃ u, normalize p pol t = .ok u ∧
      (∀ r ∈ u.rows, r.sentimentScore.isSome ∧ r.sentimentTrend.isSome) ∧
      (t.hasJournal = false →
        ∀ r ∈ u.rows, r.sentimentScore = some 0 ∧ r.sentimentTrend = some 0) := by
  refine ⟨addSentiment pol { t with rows := cleanDates p t.rows }, ?_, ?_, ?_⟩
  · unfold normalize
    rw [if_pos hD]
  · intro r hr
    cases hJ : t.hasJournal
    · have hJ2 : ({ t with rows := cleanDates p t.rows } : Table).hasJournal = false := hJ
      rw [addSentiment_eq_of_false pol _ hJ2] at hr
      obtain ⟨r0, _, hre⟩ := List.mem_map.mp hr
      rw [← hre]
      exact ⟨rfl, rfl⟩
    · have hJ2 : ({ t with rows := cleanDates p t.rows } : Table).hasJournal = true := hJ
      rw [addSentiment_eq_of_true pol _ hJ2] at hr
      obtain ⟨a, _, tr, htr, hre⟩ := mem_zipWith hr
      obtain ⟨q, hq⟩ := rollingMean_mem_isSome _ htr
      constructor
      · rw [hre]
        rfl
      · have : r.sentimentTrend = tr := by rw [hre]; rfl
        rw [this, hq]
        rfl
  · intro hJ r hr
    have hJ2 : ({ t with rows := cleanDates p t.rows } : Table).hasJournal = false := hJ
    rw [addSentiment_eq_of_false pol _ hJ2] at hr
    obtain ⟨r0, _, hre⟩ := List.mem_map.mp hr
    rw [← hre]
    exact ⟨rfl, rfl⟩

theorem C8_missing_optional_columns_not_fatal_witness :
    ∃ u, normalize pIso polZero tWitness = .ok u ∧
      (∀ r ∈ u.rows, r.sentimentScore.isSome ∧ r.sentimentTrend.isSome) ∧
      (tWitness.hasJournal = false →
        ∀ r ∈ u.rows, r.sentimentScore = some 0 ∧ r.sentimentTrend = some 0) :=
  C8_missing_optional_columns_not_fatal pIso polZero tWitness rfl

/-- C9: when the text-to-number mapping applies (a `Mood` column exists and
no `Mood_Score` column does), a row whose `Mood` is one of Great, Good,
Neutral, Bad, Terrible receives `Mood_Score` 5, 4, 3, 2, 1 respectively
and `Mood_Normalized` = (Mood_Score - 3) / 2, which lies in [-1, 1]. -/
theorem C9_mood_mapping_and_normalization (t : Table) (hM : t.hasMood = true)
    (hMS : t.hasMoodScore = false) (i : Nat) (hi : i < t.rows.length) (m : String)
    (hm : (t.rows.getD i default).mood = some m)
    (hv : m = "Great" ∨ m = "Good" ∨ m = "Neutral" ∨ m = "Bad" ∨ m = "Terrible") :
    ∃ v : ℚ, ((moodStep t).rows.getD i default).moodScore = some v ∧
      ((moodStep t).rows.getD i default).moodNormalized = some ((v - 3) / 2) ∧
      (m = "Great" → v = 5) ∧ (m = "Good" → v = 4) ∧ (m = "Neutral" → v = 3) ∧
      (m = "Bad" → v = 2) ∧ (m = "Terrible" → v = 1) ∧
      -1 ≤ (v - 3) / 2 ∧ (v - 3) / 2 ≤ 1 := by
  have hsc : ((moodStep t).rows.getD i default).moodScore =
      (t.rows.getD i default).mood.bind mood_map := by
    rw [moodStep_eq_of t hM hMS, getD_map_row _ _ hi]
  have hnm : ((moodStep t).rows.getD i default).moodNormalized =
      ((t.rows.getD i default).mood.bind mood_map).map fun q => (q - 3) / 2 := by
    rw [moodStep_eq_of t hM hMS, getD_map_row _ _ hi]
  rw [hm] at hsc hnm
  rcases hv with h5 | h4 | h3 | h2 | h1
  · subst h5
    exact ⟨5, hsc, hnm, fun _ => rfl, fun hx => absurd hx (by decide),
           fun hx => absurd hx (by decide), fun hx => absurd hx (by decide),
           fun hx => absurd hx (by decide), by norm_num, by norm_num⟩
  · subst h4
    exact ⟨4, hsc, hnm, fun hx => absurd hx (by decide), fun _ => rfl,
           fun hx => absurd hx (by decide), fun hx => absurd hx (by decide),
           fun hx => absurd hx (by decide), by norm_num, by norm_num⟩
  · subst h3
    exact ⟨3, hsc, hnm, fun hx => absurd hx (by decide), fun hx => absurd hx (by decide),
           fun _ => rfl, fun hx => absurd hx (by decide),
           fun hx => absurd hx (by decide), by norm_num, by norm_num⟩
  · subst h2
    exact ⟨2, hsc, hnm, fun hx => absurd hx (by decide), fun hx => absurd hx (by decide),
           fun hx => absurd hx (by decide), fun _ => rfl,
           fun hx => absurd hx (by decide), by norm_num, by norm_num⟩
  · subst h1
    exact ⟨1, hsc, hnm, fun hx => absurd hx (by decide), fun hx => absurd hx (by decide),
           fun hx => absurd hx (by decide), fun hx => absurd hx (by decide),
           fun _ => rfl, by norm_num, by norm_num⟩

theorem C9_mood_mapping_and_normalization_witness :
    ∃ v : ℚ, ((moodStep tMood).rows.getD 0 default).moodScore = some v ∧
      ((moodStep tMood).rows.getD 0 default).moodNormalized = some ((v - 3) / 2) ∧
      ("Great" = "Great" → v = 5) ∧ ("Great" = "Good" → v = 4) ∧
      ("Great" = "Neutral" → v = 3) ∧ ("Great" = "Bad" → v = 2) ∧
      ("Great" = "Terrible" → v = 1) ∧ -1 ≤ (v - 3) / 2 ∧ (v - 3) / 2 ≤ 1 :=
  C9_mood_mapping_and_normalization tMood rfl rfl 0 (by decide) "Great" rfl (Or.inl rfl)

/-- C10: when the input table already has a `Mood_Score` column (or has no
`Mood` column at all), the text-to-number mapping step is skipped and the
`Mood_Score` values — and the `Mood` column itself — are left unchanged;
the mapping is applied only when `Mood` exists and `Mood_Score` does not. -/
theorem C10_mood_score_preserved (t : Table)
    (h : t.hasMoodScore = true ∨ t.hasMood = false) :
    (moodStep t).rows.map (fun r => r.moodScore) = t.rows.map (fun r => r.moodScore) ∧
    (moodStep t).rows.map (fun r => r.mood) = t.rows.map fun r => r.mood := by
  have hcond : (t.hasMood && !t.hasMoodScore) = false := by
    rcases h with h | h <;> simp [h]
  simp only [moodStep, hcond, Bool.false_eq_true, if_false]
  by_cases h2 : t.hasMoodScore = true
  · rw [if_pos h2]
    constructor
    · rw [List.map_map]
      exact List.map_congr_left fun r _ => rfl
    · rw [List.map_map]
      exact List.map_congr_left fun r _ => rfl
  · rw [if_neg h2]
    exact ⟨rfl, rfl⟩

theorem C10_mood_score_preserved_witness :
    (moodStep tMoodScore).rows.map (fun r => r.moodScore) =
      tMoodScore.rows.map (fun r => r.moodScore) ∧
    (moodStep tMoodScore).rows.map (fun r => r.mood) =
      tMoodScore.rows.map fun r => r.mood :=
  C10_mood_score_preserved tMoodScore (Or.inl rfl)

end DataDriven
